import Mathlib

/-!
Shallow embedding of the grugchat full node (state machine in state.rs,
transaction model in tx.rs, batching and sync engine in fullnode.rs, HTTP
command handlers in webserver.rs), together with proofs settling the spec
claims.  Modelling conventions:

* Rust byte vectors and Rust Strings (which are UTF-8 byte vectors) are both
  modelled as `List Nat`; bincode's UTF-8 validity check on decoded Strings is
  not modelled (it only shrinks the set of payloads that decode successfully).
* Rust HashMaps are modelled as association lists with first-match lookup and
  in-place replacing insert; the claims never depend on iteration order.
* A Rust panic (`unwrap` on `None`/`Err`) is modelled as `none` /
  `ProcessResult.panicked`.
* The bincode 1.x default configuration used by `bincode::serialize` /
  `bincode::deserialize` is modelled byte-exactly: fixint encoding (u64
  little-endian lengths, u32 little-endian enum discriminants), and trailing
  bytes allowed on deserialization.
* ed25519_dalek is abstracted at the FFI boundary by `Ed25519Impl`: a point
  validity predicate for 32-byte keys (VerifyingKey::from_bytes) and the
  cryptographic verification itself.  The length dispatch around those calls
  is taken from tx.rs.
-/

namespace Grugchat

/-- Raw byte sequences (Rust Vec of u8 and the UTF-8 bytes of Rust Strings). -/
abbrev Bytes := List Nat

/-- Little-endian decomposition of n into k bytes (bincode fixint encoding). -/
def leBytes (n k : Nat) : Bytes :=
  match k with
  | 0 => []
  | k + 1 => n % 256 :: leBytes (n / 256) k

/-- Value of a little-endian byte sequence. -/
def leVal : Bytes → Nat
  | [] => 0
  | b :: rest => b + 256 * leVal rest

/-- tx.rs struct SendMessage; fields in Rust declaration order. -/
structure SendMessage where
  user : Bytes
  contents : Bytes
  channel : Bytes
  signature : Bytes
deriving DecidableEq

/-- tx.rs struct Register; fields in Rust declaration order. -/
structure Register where
  user : Bytes
  id : Bytes
  signature : Bytes
deriving DecidableEq

/-- tx.rs enum Transaction with its two variants, in declaration order. -/
inductive Transaction where
  | SendMessage (c : Grugchat.SendMessage)
  | Register (c : Grugchat.Register)
deriving DecidableEq

/-- Transaction::pubkey in tx.rs: the embedded user key. -/
def Transaction.pubkey : Transaction → Bytes
  | .SendMessage c => c.user
  | .Register c => c.user

/-- Transaction::without_signature in tx.rs: clear the signature field. -/
def Transaction.without_signature : Transaction → Transaction
  | .SendMessage c => .SendMessage { c with signature := [] }
  | .Register c => .Register { c with signature := [] }

/-- All field byte lengths fit in a u64, as is forced for real Rust Vec
    lengths; needed because the model uses unbounded naturals. -/
def Transaction.wf64 : Transaction → Bool
  | .SendMessage c =>
      decide (c.user.length < 2 ^ 64) && decide (c.contents.length < 2 ^ 64) &&
      decide (c.channel.length < 2 ^ 64) && decide (c.signature.length < 2 ^ 64)
  | .Register c =>
      decide (c.user.length < 2 ^ 64) && decide (c.id.length < 2 ^ 64) &&
      decide (c.signature.length < 2 ^ 64)

/-- The user key is nonempty and all field byte lengths are below 2^32
    (true in particular of real transactions with 32-byte Ed25519 keys). -/
def Transaction.wf32 : Transaction → Bool
  | .SendMessage c =>
      decide (0 < c.user.length) && decide (c.user.length < 2 ^ 32) &&
      decide (c.contents.length < 2 ^ 32) && decide (c.channel.length < 2 ^ 32) &&
      decide (c.signature.length < 2 ^ 32)
  | .Register c =>
      decide (0 < c.user.length) && decide (c.user.length < 2 ^ 32) &&
      decide (c.id.length < 2 ^ 32) && decide (c.signature.length < 2 ^ 32)

/-- bincode length-prefixed field (Vec of u8 or String): u64 LE length, bytes. -/
def encodeField (v : Bytes) : Bytes := leBytes v.length 8 ++ v

/-- bincode encoding of the Transaction enum: u32 LE variant index, then the
    fields in declaration order. -/
def encodeTx : Transaction → Bytes
  | .SendMessage c =>
      leBytes 0 4 ++ encodeField c.user ++ encodeField c.contents ++
      encodeField c.channel ++ encodeField c.signature
  | .Register c =>
      leBytes 1 4 ++ encodeField c.user ++ encodeField c.id ++
      encodeField c.signature

/-- bincode encoding of Batch (a Vec of Transactions): u64 LE count, then the
    encoded transactions in order. -/
def encodeBatch (ts : List Transaction) : Bytes :=
  leBytes ts.length 8 ++ (ts.map encodeTx).flatten

/-- Read k bytes as a little-endian value; none when the input is too short. -/
def readLE (k : Nat) (b : Bytes) : Option (Nat × Bytes) :=
  if k ≤ b.length then some (leVal (b.take k), b.drop k) else none

/-- Read one length-prefixed byte field. -/
def readBytesField (b : Bytes) : Option (Bytes × Bytes) :=
  match readLE 8 b with
  | none => none
  | some (len, rest) =>
      if len ≤ rest.length then some (rest.take len, rest.drop len) else none

/-- bincode deserialization of one Transaction, returning the unread rest. -/
def decodeTx (b : Bytes) : Option (Transaction × Bytes) :=
  match readLE 4 b with
  | none => none
  | some (disc, r0) =>
      if disc = 0 then
        match readBytesField r0 with
        | none => none
        | some (user, r1) =>
          match readBytesField r1 with
          | none => none
          | some (contents, r2) =>
            match readBytesField r2 with
            | none => none
            | some (channel, r3) =>
              match readBytesField r3 with
              | none => none
              | some (sig, r4) =>
                  some (Transaction.SendMessage ⟨user, contents, channel, sig⟩, r4)
      else if disc = 1 then
        match readBytesField r0 with
        | none => none
        | some (user, r1) =>
          match readBytesField r1 with
          | none => none
          | some (id, r2) =>
            match readBytesField r2 with
            | none => none
            | some (sig, r3) =>
                some (Transaction.Register ⟨user, id, sig⟩, r3)
      else none

/-- bincode deserialization of n consecutive Transactions. -/
def decodeTxList : Nat → Bytes → Option (List Transaction × Bytes)
  | 0, b => some ([], b)
  | n + 1, b =>
      match decodeTx b with
      | none => none
      | some (t, r) =>
          match decodeTxList n r with
          | none => none
          | some (ts, r2) => some (t :: ts, r2)

/-- bincode deserialize of a whole Batch blob (trailing bytes are allowed by
    the bincode 1.x default configuration). -/
def decodeBatch (b : Bytes) : Option (List Transaction) :=
  match readLE 8 b with
  | none => none
  | some (count, rest) =>
      match decodeTxList count rest with
      | none => none
      | some (ts, _) => some ts

/-- TryFrom Blob for Batch in fullnode.rs: try Batch deserialization first,
    fall back to deserializing a lone Transaction wrapped as a singleton. -/
def batchTryFrom (b : Bytes) : Option (List Transaction) :=
  match decodeBatch b with
  | some ts => some ts
  | none =>
      match decodeTx b with
      | some (t, _) => some [t]
      | none => none

/-- The transactions one blob contributes inside process_l1_block's flat_map;
    a blob that decodes as neither Batch nor Transaction contributes nothing. -/
def blobTxs (b : Bytes) : List Transaction :=
  (batchTryFrom b).getD []

/-- state.rs struct Message. -/
structure Message where
  user_id : Bytes
  contents : Bytes
deriving DecidableEq

/-- HashMap lookup modelled on an association list: first match wins. -/
def mapGet {α β : Type} [DecidableEq α] : List (α × β) → α → Option β
  | [], _ => none
  | (k, v) :: rest, k2 => if k = k2 then some v else mapGet rest k2

/-- HashMap insert modelled on an association list: replace in place when the
    key is present, otherwise append. -/
def mapInsert {α β : Type} [DecidableEq α] : List (α × β) → α → β → List (α × β)
  | [], k, v => [(k, v)]
  | (k1, v1) :: rest, k, v =>
      if k1 = k then (k, v) :: rest else (k1, v1) :: mapInsert rest k v

/-- HashMap contains_key. -/
def mapContains {α β : Type} [DecidableEq α] (m : List (α × β)) (k : α) : Bool :=
  (mapGet m k).isSome

/-- state.rs struct State: users and channels maps. -/
structure State where
  users : List (Bytes × Bytes)
  channels : List (Bytes × List Message)
deriving DecidableEq

/-- State::new. -/
def State.new : State := ⟨[], []⟩

/-- State::read_channel. -/
def State.read_channel (s : State) (channel : Bytes) : Option (List Message) :=
  mapGet s.channels channel

/-- State::list_channels. -/
def State.list_channels (s : State) : List Bytes :=
  s.channels.map Prod.fst

/-- State::validate_tx, with the anyhow error messages from state.rs. -/
def State.validate_tx (s : State) (tx : Transaction) : Except String Unit :=
  match tx with
  | .SendMessage c =>
      if mapContains s.users c.user then Except.ok () else Except.error "user not yet registered"
  | .Register c =>
      if mapContains s.users c.user then Except.error "user already exists" else Except.ok ()

/-- Outcome of State::process_tx: Ok with the new state, Err with the
    (unmodified) state and the error message, or a Rust panic. -/
inductive ProcessResult where
  | ok (s : State)
  | rejected (s : State) (e : String)
  | panicked
deriving DecidableEq

/-- State::process_tx from state.rs.  For SendMessage the code runs
    channels.get_mut(channel).unwrap() and users.get(user).unwrap(): either
    unwrap on None is a panic.  The is_empty branch replaces an empty message
    vector, the other branch pushes onto the existing vector. -/
def State.process_tx (s : State) (tx : Transaction) : ProcessResult :=
  match s.validate_tx tx with
  | .error e => .rejected s e
  | .ok _ =>
      match tx with
      | .SendMessage c =>
          match mapGet s.channels c.channel with
          | none => .panicked
          | some msgs =>
              match mapGet s.users c.user with
              | none => .panicked
              | some name =>
                  let m : Message := ⟨name, c.contents⟩
                  if msgs.isEmpty then
                    .ok { s with channels := mapInsert s.channels c.channel [m] }
                  else
                    .ok { s with channels := mapInsert s.channels c.channel (msgs ++ [m]) }
      | .Register c =>
          if mapContains s.users c.user then .rejected s "user already exists"
          else .ok { s with users := mapInsert s.users c.user c.id }

/-- One iteration of process_l1_block's for_each over transactions: Ok and
    Err both continue (the error is only logged), a panic aborts the task. -/
def applyLogged (st : Option State) (tx : Transaction) : Option State :=
  match st with
  | none => none
  | some s =>
      match s.process_tx tx with
      | .ok s2 => some s2
      | .rejected s2 _ => some s2
      | .panicked => none

/-- FullNode::process_l1_block: flat_map blob decoding (decode failures
    contribute nothing), then apply every transaction in order. -/
def process_l1_block (s : State) (blobs : List Bytes) : Option State :=
  ((blobs.map blobTxs).flatten).foldl applyLogged (some s)

/-- Heights iterated by the catch-up loop: start ≤ h < H, in increasing order. -/
def heights (start H : Nat) : List Nat := List.range' start (H - start)

/-- One iteration of the catch-up loop body at a height: fetch blobs from the
    DA layer and process them when present (None means no blobs there). -/
def syncStep (da : Nat → Option (List Bytes)) (st : Option State) (h : Nat) : Option State :=
  match st with
  | none => none
  | some s =>
      match da h with
      | some blobs => process_l1_block s blobs
      | none => some s

/-- FullNode::sync_from_genesis over an abstract DA layer da and the network
    head H observed at start; transport errors are out of scope (the claim is
    about completed runs). -/
def sync_from_genesis (da : Nat → Option (List Bytes)) (start H : Nat) (s : State) : Option State :=
  (heights start H).foldl (syncStep da) (some s)

/-- Modelled from the spec (section 4.4, claim C2 reference side): the flat
    list of all transactions decoded from the namespace blobs of heights
    start..H, ordered by height, then blob order, then in-batch order; a
    height with no blobs contributes nothing. -/
def specSyncTxs (da : Nat → Option (List Bytes)) (start H : Nat) : List Transaction :=
  ((heights start H).map (fun h => (((da h).getD []).map blobTxs).flatten)).flatten

/-- Modelled from the spec (sections 4.2 and 4.4, claim C2 reference side):
    the fold of process_tx over a transaction list in which a validation
    rejection skips the transaction and continues with the rest. -/
def specLedgerFold (s : State) (txs : List Transaction) : Option State :=
  txs.foldl applyLogged (some s)

/-- The node state touched by the mempool and HTTP handlers: the ledger behind
    its mutex and the pending transaction list behind its mutex.  The DA
    client, namespace and start height are handled by the sync model above. -/
structure FullNode where
  state : State
  pending : List Transaction
deriving DecidableEq

/-- FullNode::queue_transaction: push onto the pending list, return Ok. -/
def queue_transaction (n : FullNode) (tx : Transaction) : Except String FullNode :=
  Except.ok { n with pending := n.pending ++ [tx] }

/-- Observable outcome of FullNode::post_pending_batch. -/
inductive PostOutcome where
  | okNoPost
  | posted (blob : Bytes)
  | failed
deriving DecidableEq

/-- FullNode::post_pending_batch: under the pending-list lock, return Ok
    publishing nothing when empty; otherwise drain everything, encode the
    drained list as one Batch blob and submit it.  A failed submission
    propagates as Err with the list already drained.  publishOk abstracts the
    DA-layer submission outcome. -/
def post_pending_batch (n : FullNode) (publishOk : Bytes → Bool) : FullNode × PostOutcome :=
  if n.pending.isEmpty then (n, PostOutcome.okNoPost)
  else
    let encoded := encodeBatch n.pending
    if publishOk encoded then ({ n with pending := [] }, PostOutcome.posted encoded)
    else ({ n with pending := [] }, PostOutcome.failed)

/-- webserver.rs RegisterUserRequest. -/
structure RegisterUserRequest where
  public_key : Bytes
  id : Bytes
  signature : Bytes

/-- webserver.rs SendMessageRequest. -/
structure SendMessageRequest where
  user : Bytes
  contents : Bytes
  channel : Bytes
  signature : Bytes

/-- webserver.rs register_user handler: build the Register transaction from
    the deserialized payload, enqueue it, map an enqueue error to a 500. -/
def register_user (n : FullNode) (p : RegisterUserRequest) : Except (Nat × String) FullNode :=
  match queue_transaction n (Transaction.Register ⟨p.public_key, p.id, p.signature⟩) with
  | .ok n2 => Except.ok n2
  | .error e => Except.error (500, e)

/-- webserver.rs send_message handler. -/
def send_message (n : FullNode) (p : SendMessageRequest) : Except (Nat × String) FullNode :=
  match queue_transaction n (Transaction.SendMessage ⟨p.user, p.contents, p.channel, p.signature⟩) with
  | .ok n2 => Except.ok n2
  | .error e => Except.error (500, e)

/-- Abstraction of ed25519_dalek at the FFI boundary: validPoint is whether
    VerifyingKey::from_bytes accepts a 32-byte key, rawVerify (key, msg, sig)
    is the cryptographic check for well-formed inputs. -/
structure Ed25519Impl where
  validPoint : Bytes → Bool
  rawVerify : Bytes → Bytes → Bytes → Bool

/-- The most permissive instantiation: decoding and verification always pass
    whenever ed25519_dalek is even reached. -/
def allValid : Ed25519Impl := ⟨fun _ => true, fun _ _ _ => true⟩

/-- Signature::verify from tx.rs.  pk.into() runs try_into().unwrap() (panic
    unless the key has exactly 32 bytes) and VerifyingKey::from_bytes(..)
    .unwrap() (panic unless the bytes are a valid point); the signature's
    into() runs try_into().unwrap() (panic unless exactly 64 bytes).  none
    models those panics; some b is the Boolean verification result. -/
def Signature.verify (impl : Ed25519Impl) (sig pk msg : Bytes) : Option Bool :=
  if pk.length = 32 then
    if impl.validPoint pk then
      if sig.length = 64 then some (impl.rawVerify pk msg sig) else none
    else none
  else none

/-- Joint state of the two sync-engine tasks of fullnode.rs (catch-up task
    sync_from_genesis and live task sync_incoming_blocks) plus the mpsc queue
    between the subscription and the consumer loop.  nextHeight is the
    catch-up loop counter, signalFired models genesis_sync_complete together
    with sync_notify.notify_waiters, gatePassed models sync_notify.notified()
    having returned in the consumer, ledger is the mutex-protected State
    (none once a task panicked), liveApplied counts consumer-loop iterations
    that applied a subscription-delivered blob list. -/
structure EngineState where
  nextHeight : Nat
  signalFired : Bool
  gatePassed : Bool
  queue : List (List Bytes)
  ledger : Option State
  liveApplied : Nat
deriving DecidableEq

/-- Engine state at node start: catch-up at start height, signal not fired,
    consumer still parked on notified(), empty queue, fresh State::new. -/
def engineInit (start : Nat) : EngineState :=
  ⟨start, false, false, [], some State.new, 0⟩

/-- Interleaving semantics of the sync engine.  Each constructor is one atomic
    step of one task; the scheduler is fully nondeterministic, which
    over-approximates the tokio runtime.  catchup: one loop iteration of
    sync_from_genesis.  fire: the store(true) / notify_waiters pair after the
    loop (requires the loop to have completed without panicking).  recvBlobs:
    the subscription task pushes a delivered blob list into the mpsc queue
    (its contents are unconstrained, over-approximating the DA stream).
    passGate: notified() returns — only possible after notify_waiters.
    consume: one consumer-loop iteration applying the queue head. -/
inductive EngineStep (da : Nat → Option (List Bytes)) (H : Nat) :
    EngineState → EngineState → Prop where
  | catchup (e : EngineState) (s : State)
      (h1 : e.nextHeight < H) (h2 : e.ledger = some s) :
      EngineStep da H e
        { e with nextHeight := e.nextHeight + 1,
                 ledger := syncStep da (some s) e.nextHeight }
  | fire (e : EngineState)
      (h1 : ¬ e.nextHeight < H) (h2 : e.ledger.isSome) (h3 : e.signalFired = false) :
      EngineStep da H e { e with signalFired := true }
  | recvBlobs (e : EngineState) (blobs : List Bytes) :
      EngineStep da H e { e with queue := e.queue ++ [blobs] }
  | passGate (e : EngineState)
      (h1 : e.signalFired = true) (h2 : e.gatePassed = false) :
      EngineStep da H e { e with gatePassed := true }
  | consume (e : EngineState) (s : State) (blobs : List Bytes) (rest : List (List Bytes))
      (h1 : e.gatePassed = true) (h2 : e.queue = blobs :: rest) (h3 : e.ledger = some s) :
      EngineStep da H e
        { e with queue := rest, ledger := process_l1_block s blobs,
                 liveApplied := e.liveApplied + 1 }

/-- Reachable engine states from a start height. -/
inductive EngineReach (da : Nat → Option (List Bytes)) (H start : Nat) :
    EngineState → Prop where
  | init : EngineReach da H start (engineInit start)
  | step {e e2 : EngineState} :
      EngineReach da H start e → EngineStep da H e e2 → EngineReach da H start e2

/-- Inductive invariant of the sync-engine interleaving semantics: the gate
    opens only after the signal, the signal fires only after the catch-up
    loop has exhausted start..H, and until the first live application the
    ledger is exactly the catch-up fold up to the loop counter. -/
def engineInv (da : Nat → Option (List Bytes)) (H start : Nat) (e : EngineState) : Prop :=
  (e.gatePassed = true → e.signalFired = true) ∧
  (e.signalFired = true → H ≤ e.nextHeight) ∧
  (0 < e.liveApplied → e.gatePassed = true) ∧
  (e.liveApplied = 0 → e.ledger = sync_from_genesis da start e.nextHeight State.new) ∧
  start ≤ e.nextHeight

/-! Lemmas about little-endian byte encoding and the bincode model. -/

theorem leBytes_length (n k : Nat) : (leBytes n k).length = k := by
  induction k generalizing n with
  | zero => rfl
  | succ k ih => simp [leBytes, ih]

theorem leVal_leBytes (n k : Nat) : leVal (leBytes n k) = n % 256 ^ k := by
  induction k generalizing n with
  | zero => simp [leBytes, leVal, Nat.mod_one]
  | succ k ih =>
      rw [pow_succ, mul_comm, Nat.mod_mul]
      simp [leBytes, leVal, ih]

theorem leBytes_add (n a b : Nat) :
    leBytes n (a + b) = leBytes n a ++ leBytes (n / 256 ^ a) b := by
  induction a generalizing n with
  | zero => simp [leBytes]
  | succ a ih =>
      have : n / 256 ^ (a + 1) = n / 256 / 256 ^ a := by
        rw [Nat.div_div_eq_div_mul, pow_succ, mul_comm]
      rw [Nat.succ_add]
      simp [leBytes, ih, this]

theorem leVal_append (x y : Bytes) :
    leVal (x ++ y) = leVal x + 256 ^ x.length * leVal y := by
  induction x with
  | nil => simp [leVal]
  | cons b rest ih =>
      simp [leVal, ih, pow_succ]
      ring

theorem readLE_exact (k : Nat) (x r : Bytes) (h : x.length = k) :
    readLE k (x ++ r) = some (leVal x, r) := by
  subst h
  simp [readLE]

theorem readBytesField_encodeField (v r : Bytes) (hv : v.length < 2 ^ 64) :
    readBytesField (encodeField v ++ r) = some (v, r) := by
  have h8 : (leBytes v.length 8).length = 8 := leBytes_length v.length 8
  have hread : readLE 8 (leBytes v.length 8 ++ (v ++ r)) =
      some (leVal (leBytes v.length 8), v ++ r) := readLE_exact 8 _ _ h8
  have hval : leVal (leBytes v.length 8) = v.length := by
    rw [leVal_leBytes]
    exact Nat.mod_eq_of_lt (by norm_num at hv ⊢; omega)
  simp only [readBytesField, encodeField, List.append_assoc, hread, hval]
  simp

theorem wf32_imp_wf64 (t : Transaction) (h : t.wf32 = true) : t.wf64 = true := by
  cases t with
  | SendMessage c =>
      simp [Transaction.wf32] at h
      simp [Transaction.wf64]
      omega
  | Register c =>
      simp [Transaction.wf32] at h
      simp [Transaction.wf64]
      omega

theorem decodeTx_encodeTx (t : Transaction) (r : Bytes) (h : t.wf64 = true) :
    decodeTx (encodeTx t ++ r) = some (t, r) := by
  cases t with
  | SendMessage c =>
      simp [Transaction.wf64] at h
      obtain ⟨⟨⟨hu, hc⟩, hch⟩, hs⟩ := h
      have hd : readLE 4 (leBytes 0 4 ++
          (encodeField c.user ++ (encodeField c.contents ++
            (encodeField c.channel ++ (encodeField c.signature ++ r))))) =
          some (leVal (leBytes 0 4),
            encodeField c.user ++ (encodeField c.contents ++
              (encodeField c.channel ++ (encodeField c.signature ++ r)))) :=
        readLE_exact 4 _ _ (leBytes_length 0 4)
      have hval : leVal (leBytes 0 4) = 0 := by rw [leVal_leBytes]; simp
      simp only [decodeTx, encodeTx, List.append_assoc, hd, hval, if_pos rfl,
        readBytesField_encodeField c.user _ hu,
        readBytesField_encodeField c.contents _ hc,
        readBytesField_encodeField c.channel _ hch,
        readBytesField_encodeField c.signature _ hs]
      simp
  | Register c =>
      simp [Transaction.wf64] at h
      obtain ⟨⟨hu, hi⟩, hs⟩ := h
      have hd : readLE 4 (leBytes 1 4 ++
          (encodeField c.user ++ (encodeField c.id ++ (encodeField c.signature ++ r)))) =
          some (leVal (leBytes 1 4),
            encodeField c.user ++ (encodeField c.id ++ (encodeField c.signature ++ r))) :=
        readLE_exact 4 _ _ (leBytes_length 1 4)
      have hval : leVal (leBytes 1 4) = 1 := by rw [leVal_leBytes]; norm_num
      simp only [decodeTx, encodeTx, List.append_assoc, hd, hval,
        readBytesField_encodeField c.user _ hu,
        readBytesField_encodeField c.id _ hi,
        readBytesField_encodeField c.signature _ hs]
      simp

theorem decodeTxList_encode (ts : List Transaction) (r : Bytes)
    (h : ∀ t ∈ ts, t.wf64 = true) :
    decodeTxList ts.length ((ts.map encodeTx).flatten ++ r) = some (ts, r) := by
  induction ts with
  | nil => simp [decodeTxList]
  | cons t rest ih =>
      have ht : t.wf64 = true := h t (by simp)
      have hrest : ∀ u ∈ rest, u.wf64 = true := fun u hu => h u (by simp [hu])
      simp only [List.map_cons, List.flatten_cons, List.length_cons,
        List.append_assoc, decodeTxList, decodeTx_encodeTx t _ ht, ih hrest]

theorem decodeBatch_encodeBatch (ts : List Transaction)
    (hlen : ts.length < 2 ^ 64) (h : ∀ t ∈ ts, t.wf64 = true) :
    decodeBatch (encodeBatch ts) = some ts := by
  have h8 : (leBytes ts.length 8).length = 8 := leBytes_length ts.length 8
  have hread : readLE 8 (leBytes ts.length 8 ++ (ts.map encodeTx).flatten) =
      some (leVal (leBytes ts.length 8), (ts.map encodeTx).flatten) :=
    readLE_exact 8 _ _ h8
  have hval : leVal (leBytes ts.length 8) = ts.length := by
    rw [leVal_leBytes]
    exact Nat.mod_eq_of_lt (by norm_num at hlen ⊢; omega)
  have hlist : decodeTxList ts.length ((ts.map encodeTx).flatten ++ []) = some (ts, []) :=
    decodeTxList_encode ts [] h
  rw [List.append_nil] at hlist
  simp [decodeBatch, encodeBatch, hread, hval, hlist]

/-! Consumption bounds: every successful parse consumes input, so a Batch
    header claiming an astronomic element count cannot parse. -/

theorem readLE_consume (k : Nat) (b : Bytes) (v : Nat) (r : Bytes)
    (h : readLE k b = some (v, r)) : r.length + k = b.length := by
  by_cases hk : k ≤ b.length
  · simp [readLE, hk] at h
    obtain ⟨hv, hr⟩ := h
    subst hr
    simp
    omega
  · simp [readLE, hk] at h

theorem readBytesField_consume (b : Bytes) (v r : Bytes)
    (h : readBytesField b = some (v, r)) : r.length + 8 ≤ b.length := by
  unfold readBytesField at h
  split at h
  next => exact absurd h (by simp)
  next len rest hle =>
      have hcons := readLE_consume 8 b len rest hle
      split at h
      next hlen =>
          simp only [Option.some.injEq, Prod.mk.injEq] at h
          obtain ⟨hv, hr⟩ := h
          subst hr
          simp
          omega
      next hlen => exact absurd h (by simp)

theorem decodeTx_consume (b : Bytes) (t : Transaction) (r : Bytes)
    (h : decodeTx b = some (t, r)) : r.length + 4 ≤ b.length := by
  unfold decodeTx at h
  split at h
  next => exact absurd h (by simp)
  next disc r0 hle =>
    have hcons := readLE_consume 4 b disc r0 hle
    split at h
    next h0 =>
      split at h
      next => exact absurd h (by simp)
      next f1 s1 h1 =>
        have c1 := readBytesField_consume r0 f1 s1 h1
        split at h
        next => exact absurd h (by simp)
        next f2 s2 h2 =>
          have c2 := readBytesField_consume s1 f2 s2 h2
          split at h
          next => exact absurd h (by simp)
          next f3 s3 h3 =>
            have c3 := readBytesField_consume s2 f3 s3 h3
            split at h
            next => exact absurd h (by simp)
            next f4 s4 h4 =>
              have c4 := readBytesField_consume s3 f4 s4 h4
              simp only [Option.some.injEq, Prod.mk.injEq] at h
              obtain ⟨ht, hr⟩ := h
              subst hr
              omega
    next h0 =>
      split at h
      next h1d =>
        split at h
        next => exact absurd h (by simp)
        next f1 s1 h1 =>
          have c1 := readBytesField_consume r0 f1 s1 h1
          split at h
          next => exact absurd h (by simp)
          next f2 s2 h2 =>
            have c2 := readBytesField_consume s1 f2 s2 h2
            split at h
            next => exact absurd h (by simp)
            next f3 s3 h3 =>
              have c3 := readBytesField_consume s2 f3 s3 h3
              simp only [Option.some.injEq, Prod.mk.injEq] at h
              obtain ⟨ht, hr⟩ := h
              subst hr
              omega
      next h1d => exact absurd h (by simp)

theorem decodeTxList_min (n : Nat) (b : Bytes) (p : List Transaction × Bytes)
    (h : decodeTxList n b = some p) : 4 * n ≤ b.length := by
  induction n generalizing b p with
  | zero => omega
  | succ n ih =>
      unfold decodeTxList at h
      split at h
      next => exact absurd h (by simp)
      next t r ht =>
        have hc := decodeTx_consume b t r ht
        split at h
        next => exact absurd h (by simp)
        next ts r2 hl =>
          have := ih r (ts, r2) hl
          omega

/-- Unfolding decodeBatch through a known header read. -/
theorem decodeBatch_eq_some (b : Bytes) (count : Nat) (rest : Bytes)
    (h : readLE 8 b = some (count, rest)) :
    decodeBatch b =
      match decodeTxList count rest with
      | none => none
      | some (ts, _) => some ts := by
  unfold decodeBatch
  rw [h]

/-- The bincode encoding of a lone Transaction with a nonempty user key can
    never parse as a Batch: its first eight bytes read as an element count of
    at least 2 ^ 32, far more transactions than the payload can hold. -/
theorem decodeBatch_encodeTx_none (t : Transaction) (h : t.wf32 = true) :
    decodeBatch (encodeTx t) = none := by
  have h256 : (256 : Nat) ^ 4 = 2 ^ 32 := by norm_num
  cases t with
  | SendMessage c =>
      simp [Transaction.wf32] at h
      obtain ⟨⟨⟨⟨hpos, hu⟩, hc⟩, hch⟩, hs⟩ := h
      have hsplit : leBytes c.user.length 8 =
          leBytes c.user.length 4 ++ leBytes (c.user.length / 256 ^ 4) 4 := by
        have := leBytes_add c.user.length 4 4
        norm_num at this ⊢
        exact this
      have h1 : encodeTx (Transaction.SendMessage c) =
          (leBytes 0 4 ++ leBytes c.user.length 4) ++
          (leBytes (c.user.length / 256 ^ 4) 4 ++ (c.user ++ (encodeField c.contents ++
            (encodeField c.channel ++ encodeField c.signature)))) := by
        simp [encodeTx, encodeField, hsplit]
      have hlen8 : (leBytes 0 4 ++ leBytes c.user.length 4).length = 8 := by
        simp [leBytes_length]
      have hread := readLE_exact 8 (leBytes 0 4 ++ leBytes c.user.length 4)
        (leBytes (c.user.length / 256 ^ 4) 4 ++ (c.user ++ (encodeField c.contents ++
          (encodeField c.channel ++ encodeField c.signature)))) hlen8
      have hval : leVal (leBytes 0 4 ++ leBytes c.user.length 4) =
          2 ^ 32 * c.user.length := by
        rw [leVal_append, leVal_leBytes, leVal_leBytes, leBytes_length]
        have hm : c.user.length % 256 ^ 4 = c.user.length :=
          Nat.mod_eq_of_lt (by norm_num; omega)
        rw [hm]
        norm_num
      have hnone : decodeTxList (2 ^ 32 * c.user.length)
          (leBytes (c.user.length / 256 ^ 4) 4 ++ (c.user ++ (encodeField c.contents ++
            (encodeField c.channel ++ encodeField c.signature)))) = none := by
        cases hdl : decodeTxList (2 ^ 32 * c.user.length)
            (leBytes (c.user.length / 256 ^ 4) 4 ++ (c.user ++ (encodeField c.contents ++
              (encodeField c.channel ++ encodeField c.signature)))) with
        | none => rfl
        | some p =>
            exfalso
            have hmin := decodeTxList_min _ _ p hdl
            have htail : (leBytes (c.user.length / 256 ^ 4) 4 ++ (c.user ++
                (encodeField c.contents ++ (encodeField c.channel ++
                  encodeField c.signature)))).length =
                28 + c.user.length + c.contents.length + c.channel.length +
                  c.signature.length := by
              simp [encodeField, leBytes_length]
              omega
            rw [htail] at hmin
            norm_num at hmin
            omega
      rw [h1, decodeBatch_eq_some _ _ _ hread, hval, hnone]
  | Register c =>
      simp [Transaction.wf32] at h
      obtain ⟨⟨⟨hpos, hu⟩, hi⟩, hs⟩ := h
      have hsplit : leBytes c.user.length 8 =
          leBytes c.user.length 4 ++ leBytes (c.user.length / 256 ^ 4) 4 := by
        have := leBytes_add c.user.length 4 4
        norm_num at this ⊢
        exact this
      have h1 : encodeTx (Transaction.Register c) =
          (leBytes 1 4 ++ leBytes c.user.length 4) ++
          (leBytes (c.user.length / 256 ^ 4) 4 ++ (c.user ++ (encodeField c.id ++
            encodeField c.signature))) := by
        simp [encodeTx, encodeField, hsplit]
      have hlen8 : (leBytes 1 4 ++ leBytes c.user.length 4).length = 8 := by
        simp [leBytes_length]
      have hread := readLE_exact 8 (leBytes 1 4 ++ leBytes c.user.length 4)
        (leBytes (c.user.length / 256 ^ 4) 4 ++ (c.user ++ (encodeField c.id ++
          encodeField c.signature))) hlen8
      have hval : leVal (leBytes 1 4 ++ leBytes c.user.length 4) =
          1 + 2 ^ 32 * c.user.length := by
        rw [leVal_append, leVal_leBytes, leVal_leBytes, leBytes_length]
        have hm : c.user.length % 256 ^ 4 = c.user.length :=
          Nat.mod_eq_of_lt (by norm_num; omega)
        rw [hm]
        norm_num
      have hnone : decodeTxList (1 + 2 ^ 32 * c.user.length)
          (leBytes (c.user.length / 256 ^ 4) 4 ++ (c.user ++ (encodeField c.id ++
            encodeField c.signature))) = none := by
        cases hdl : decodeTxList (1 + 2 ^ 32 * c.user.length)
            (leBytes (c.user.length / 256 ^ 4) 4 ++ (c.user ++ (encodeField c.id ++
              encodeField c.signature))) with
        | none => rfl
        | some p =>
            exfalso
            have hmin := decodeTxList_min _ _ p hdl
            have htail : (leBytes (c.user.length / 256 ^ 4) 4 ++ (c.user ++
                (encodeField c.id ++ encodeField c.signature))).length =
                20 + c.user.length + c.id.length + c.signature.length := by
              simp [encodeField, leBytes_length]
              omega
            rw [htail] at hmin
            norm_num at hmin
            omega
      rw [h1, decodeBatch_eq_some _ _ _ hread, hval, hnone]

/-! Lemmas about the association-list map model. -/

theorem mapGet_mapInsert_self {α β : Type} [DecidableEq α]
    (m : List (α × β)) (k : α) (v : β) : mapGet (mapInsert m k v) k = some v := by
  induction m with
  | nil => simp [mapInsert, mapGet]
  | cons p rest ih =>
      obtain ⟨k1, v1⟩ := p
      by_cases h : k1 = k
      · simp [mapInsert, h, mapGet]
      · simp [mapInsert, h, mapGet, ih]

/-- C7: applying SendMessage for an unregistered user is rejected with the
    "user not yet registered" error and returns the ledger untouched (the
    rejected result carries the input state unchanged, so in particular every
    channel, present or absent, is exactly as before). -/
theorem send_unregistered_rejected (s : State) (c : Grugchat.SendMessage)
    (h : mapGet s.users c.user = none) :
    s.process_tx (Transaction.SendMessage c) =
      ProcessResult.rejected s "user not yet registered" := by
  simp [State.process_tx, State.validate_tx, mapContains, h]

/-- Witness for send_unregistered_rejected at a concrete ledger and message. -/
theorem send_unregistered_rejected_witness :
    mapGet (State.new).users [1] = none ∧
    State.process_tx State.new (Transaction.SendMessage ⟨[1], [2], [3], []⟩) =
      ProcessResult.rejected State.new "user not yet registered" :=
  ⟨by decide, send_unregistered_rejected State.new ⟨[1], [2], [3], []⟩ (by decide)⟩

/-- C6: registering a fresh user succeeds and inserts the display name;
    re-applying the same Register to the resulting ledger is rejected with
    "user already exists" and returns that ledger unchanged. -/
theorem register_twice (s : State) (u id sig : Bytes)
    (h : mapGet s.users u = none) :
    s.process_tx (Transaction.Register ⟨u, id, sig⟩) =
      ProcessResult.ok { s with users := mapInsert s.users u id } ∧
    State.process_tx { s with users := mapInsert s.users u id }
        (Transaction.Register ⟨u, id, sig⟩) =
      ProcessResult.rejected { s with users := mapInsert s.users u id }
        "user already exists" := by
  constructor
  · simp [State.process_tx, State.validate_tx, mapContains, h]
  · simp [State.process_tx, State.validate_tx, mapContains, mapGet_mapInsert_self]

/-- Witness for register_twice at a concrete ledger and registration. -/
theorem register_twice_witness :
    mapGet (State.new).users [1] = none ∧
    (State.process_tx State.new (Transaction.Register ⟨[1], [7], []⟩) =
      ProcessResult.ok ⟨[([1], [7])], []⟩ ∧
     State.process_tx ⟨[([1], [7])], []⟩ (Transaction.Register ⟨[1], [7], []⟩) =
      ProcessResult.rejected ⟨[([1], [7])], []⟩ "user already exists") :=
  ⟨by decide, register_twice State.new [1] [7] [] (by decide)⟩

/-- C1 (code bug): for a registered user and an absent channel, process_tx
    does not create the channel — channels.get_mut(channel).unwrap() panics on
    None, so the first message to any channel aborts instead of creating it. -/
theorem sendMessage_absent_channel_panics (s : State) (c : Grugchat.SendMessage)
    (name : Bytes) (hu : mapGet s.users c.user = some name)
    (hc : mapGet s.channels c.channel = none) :
    s.process_tx (Transaction.SendMessage c) = ProcessResult.panicked := by
  simp [State.process_tx, State.validate_tx, mapContains, hu, hc]

/-- Witness for sendMessage_absent_channel_panics: a ledger in which user
    key 1 is registered as name 9 and no channel exists; sending the first
    message to channel 7 panics rather than creating the channel. -/
theorem sendMessage_absent_channel_panics_witness :
    (mapGet (⟨[([1], [9])], []⟩ : State).users [1] = some [9] ∧
     mapGet (⟨[([1], [9])], []⟩ : State).channels [7] = none) ∧
    State.process_tx ⟨[([1], [9])], []⟩ (Transaction.SendMessage ⟨[1], [5], [7], []⟩) =
      ProcessResult.panicked :=
  ⟨⟨by decide, by decide⟩,
   sendMessage_absent_channel_panics ⟨[([1], [9])], []⟩ ⟨[1], [5], [7], []⟩ [9]
     (by decide) (by decide)⟩

/-- C10: queue_transaction always returns Ok and its only effect is appending
    the transaction to the pending list; consequently both HTTP write handlers
    always answer success for any deserialized payload (signature included),
    leaving the ledger untouched, and their 500 branches are unreachable. -/
theorem queue_transaction_total (n : FullNode) (tx : Transaction)
    (p : RegisterUserRequest) (q : SendMessageRequest) :
    queue_transaction n tx = Except.ok { n with pending := n.pending ++ [tx] } ∧
    register_user n p = Except.ok
      { n with pending := n.pending ++ [Transaction.Register ⟨p.public_key, p.id, p.signature⟩] } ∧
    send_message n q = Except.ok
      { n with pending := n.pending ++ [Transaction.SendMessage ⟨q.user, q.contents, q.channel, q.signature⟩] } :=
  ⟨rfl, rfl, rfl⟩

/-- C8 (amended): blob decoding round-trips and falls back.  Decoding the
    encoding of Batch([t1, t2]) yields the batch [t1, t2]; decoding the
    encoding of a lone Transaction t yields the one-element batch [t]
    provided t's user key is nonempty and its field lengths are below 2^32
    (for an empty user key the lone encoding is itself a valid Batch
    encoding, see the counterexample); a payload that decodes as neither a
    Batch nor a Transaction contributes no transactions and processing it is
    a no-op rather than fatal. -/
theorem blob_decode_roundtrip (t1 t2 t : Transaction) (p : Bytes)
    (h1 : t1.wf64 = true) (h2 : t2.wf64 = true) (ht : t.wf32 = true)
    (hp1 : decodeBatch p = none) (hp2 : decodeTx p = none) :
    batchTryFrom (encodeBatch [t1, t2]) = some [t1, t2] ∧
    batchTryFrom (encodeTx t) = some [t] ∧
    blobTxs p = [] ∧ (∀ s : State, process_l1_block s [p] = some s) := by
  refine ⟨?_, ?_, ?_, ?_⟩
  · have hb : decodeBatch (encodeBatch [t1, t2]) = some [t1, t2] := by
      refine decodeBatch_encodeBatch [t1, t2] (by norm_num) ?_
      intro u hu
      simp only [List.mem_cons, List.not_mem_nil, or_false] at hu
      rcases hu with rfl | rfl
      · exact h1
      · exact h2
    simp [batchTryFrom, hb]
  · have hn := decodeBatch_encodeTx_none t ht
    have hd : decodeTx (encodeTx t) = some (t, []) := by
      have := decodeTx_encodeTx t [] (wf32_imp_wf64 t ht)
      rwa [List.append_nil] at this
    simp [batchTryFrom, hn, hd]
  · simp [blobTxs, batchTryFrom, hp1, hp2]
  · intro s
    simp [process_l1_block, blobTxs, batchTryFrom, hp1, hp2]

/-- Witness for blob_decode_roundtrip at concrete transactions and the empty
    payload (which decodes as neither a Batch nor a Transaction). -/
theorem blob_decode_roundtrip_witness :
    ((Transaction.Register ⟨[1], [2], [3]⟩).wf64 = true ∧
     (Transaction.SendMessage ⟨[4], [5], [6], [7]⟩).wf64 = true ∧
     (Transaction.Register ⟨[1], [], []⟩).wf32 = true ∧
     decodeBatch [] = none ∧ decodeTx [] = none) ∧
    (batchTryFrom (encodeBatch [Transaction.Register ⟨[1], [2], [3]⟩,
        Transaction.SendMessage ⟨[4], [5], [6], [7]⟩]) =
      some [Transaction.Register ⟨[1], [2], [3]⟩,
        Transaction.SendMessage ⟨[4], [5], [6], [7]⟩] ∧
     batchTryFrom (encodeTx (Transaction.Register ⟨[1], [], []⟩)) =
      some [Transaction.Register ⟨[1], [], []⟩] ∧
     blobTxs [] = [] ∧ (∀ s : State, process_l1_block s [[]] = some s)) :=
  ⟨⟨by decide, by decide, by decide, by decide, by decide⟩,
   blob_decode_roundtrip (Transaction.Register ⟨[1], [2], [3]⟩)
     (Transaction.SendMessage ⟨[4], [5], [6], [7]⟩)
     (Transaction.Register ⟨[1], [], []⟩) []
     (by decide) (by decide) (by decide) (by decide) (by decide)⟩

/-- C8 counterexample: for the lone SendMessage whose user key is empty, the
    36-byte transaction encoding begins with eight zero bytes, which the
    Batch deserializer accepts as the element count 0 with trailing bytes
    allowed; TryFrom therefore returns the empty batch, not the one-element
    batch the claim asserts for every lone transaction. -/
theorem lone_tx_decode_counterexample :
    batchTryFrom (encodeTx (Transaction.SendMessage ⟨[], [], [], []⟩)) = some [] ∧
    batchTryFrom (encodeTx (Transaction.SendMessage ⟨[], [], [], []⟩)) ≠
      some [Transaction.SendMessage ⟨[], [], [], []⟩] := by
  constructor
  · decide
  · decide

/-- C9: post_pending_batch publishes nothing and changes nothing when the
    pending list is empty; with a nonempty pending list it drains everything
    and posts the single Batch encoding of exactly the drained list in
    enqueue order when publication succeeds, and still leaves the pending
    list empty (transactions lost) when publication fails; decoding the
    posted blob recovers the drained transactions exactly. -/
theorem post_pending_batch_drains (s : State) (t : Transaction)
    (rest : List Transaction) (pub : Bytes → Bool)
    (hwf : (t :: rest).all Transaction.wf64 = true)
    (hlen : (t :: rest).length < 2 ^ 64) :
    (∀ s2 : State, ∀ pub2 : Bytes → Bool,
        post_pending_batch ⟨s2, []⟩ pub2 = (⟨s2, []⟩, PostOutcome.okNoPost)) ∧
    post_pending_batch ⟨s, t :: rest⟩ pub =
      (⟨s, []⟩, if pub (encodeBatch (t :: rest))
                then PostOutcome.posted (encodeBatch (t :: rest))
                else PostOutcome.failed) ∧
    decodeBatch (encodeBatch (t :: rest)) = some (t :: rest) := by
  refine ⟨?_, ?_, ?_⟩
  · intro s2 pub2
    simp [post_pending_batch]
  · by_cases hp : pub (encodeBatch (t :: rest)) <;>
      simp [post_pending_batch, hp]
  · refine decodeBatch_encodeBatch (t :: rest) hlen ?_
    intro u hu
    rw [List.all_eq_true] at hwf
    exact hwf u hu

/-- Witness for post_pending_batch_drains at a concrete node with two pending
    transactions and a publish function that succeeds. -/
theorem post_pending_batch_drains_witness :
    (([Transaction.Register ⟨[1], [2], [3]⟩,
       Transaction.SendMessage ⟨[4], [5], [6], [7]⟩] :
        List Transaction).all Transaction.wf64 = true ∧
     ([Transaction.Register ⟨[1], [2], [3]⟩,
       Transaction.SendMessage ⟨[4], [5], [6], [7]⟩] :
        List Transaction).length < 2 ^ 64) ∧
    ((∀ s2 : State, ∀ pub2 : Bytes → Bool,
        post_pending_batch ⟨s2, []⟩ pub2 = (⟨s2, []⟩, PostOutcome.okNoPost)) ∧
     post_pending_batch ⟨State.new, [Transaction.Register ⟨[1], [2], [3]⟩,
        Transaction.SendMessage ⟨[4], [5], [6], [7]⟩]⟩ (fun _ => true) =
      (⟨State.new, []⟩,
        if (fun _ => true) (encodeBatch [Transaction.Register ⟨[1], [2], [3]⟩,
            Transaction.SendMessage ⟨[4], [5], [6], [7]⟩])
        then PostOutcome.posted (encodeBatch [Transaction.Register ⟨[1], [2], [3]⟩,
            Transaction.SendMessage ⟨[4], [5], [6], [7]⟩])
        else PostOutcome.failed) ∧
     decodeBatch (encodeBatch [Transaction.Register ⟨[1], [2], [3]⟩,
        Transaction.SendMessage ⟨[4], [5], [6], [7]⟩]) =
      some [Transaction.Register ⟨[1], [2], [3]⟩,
        Transaction.SendMessage ⟨[4], [5], [6], [7]⟩]) :=
  ⟨⟨by decide, by decide⟩,
   post_pending_batch_drains State.new (Transaction.Register ⟨[1], [2], [3]⟩)
     [Transaction.SendMessage ⟨[4], [5], [6], [7]⟩] (fun _ => true)
     (by decide) (by decide)⟩

/-- C5 (amended): the sync engine performs no signature verification.  A
    Register transaction decoded from a DA blob is applied to the Ledger by
    process_l1_block whatever its signature bytes are — in particular bytes
    that could never pass Signature::verify. -/
theorem sync_applies_without_signature_check (s : State) (u id sig : Bytes)
    (hu : u.length < 2 ^ 64) (hid : id.length < 2 ^ 64) (hsig : sig.length < 2 ^ 64)
    (hnew : mapGet s.users u = none) :
    process_l1_block s [encodeBatch [Transaction.Register ⟨u, id, sig⟩]] =
      some { s with users := mapInsert s.users u id } := by
  have hwf : (Transaction.Register ⟨u, id, sig⟩).wf64 = true := by
    simp [Transaction.wf64]
    exact ⟨⟨hu, hid⟩, hsig⟩
  have hb : decodeBatch (encodeBatch [Transaction.Register ⟨u, id, sig⟩]) =
      some [Transaction.Register ⟨u, id, sig⟩] := by
    refine decodeBatch_encodeBatch _ (by norm_num) ?_
    intro x hx
    simp only [List.mem_cons, List.not_mem_nil, or_false] at hx
    subst hx
    exact hwf
  simp [process_l1_block, blobTxs, batchTryFrom, hb, applyLogged,
    State.process_tx, State.validate_tx, mapContains, hnew]

/-- Witness for sync_applies_without_signature_check: the two-byte signature
    9, 9 cannot be a valid Ed25519 signature (wrong length), and the key
    has length 1, yet the transaction lands in the ledger. -/
theorem sync_applies_without_signature_check_witness :
    (([1] : Bytes).length < 2 ^ 64 ∧ ([7] : Bytes).length < 2 ^ 64 ∧
     ([9, 9] : Bytes).length < 2 ^ 64 ∧ mapGet (State.new).users [1] = none) ∧
    process_l1_block State.new [encodeBatch [Transaction.Register ⟨[1], [7], [9, 9]⟩]] =
      some ⟨[([1], [7])], []⟩ :=
  ⟨⟨by decide, by decide, by decide, by decide⟩,
   sync_applies_without_signature_check State.new [1] [7] [9, 9]
     (by decide) (by decide) (by decide) (by decide)⟩

/-- C5 counterexample: a concrete transaction whose signature cannot pass
    verification — the one-byte key aborts Signature::verify with a panic
    even under the most permissive Ed25519 implementation, so no
    verification of it can succeed — is nonetheless applied to the Ledger by
    the sync engine's process_l1_block, registering the user. -/
theorem unverified_tx_reaches_ledger :
    Signature.verify allValid [9]
      (Transaction.Register ⟨[1], [7], [9]⟩).pubkey
      (encodeTx (Transaction.Register ⟨[1], [7], [9]⟩).without_signature) = none ∧
    process_l1_block State.new [encodeBatch [Transaction.Register ⟨[1], [7], [9]⟩]] =
      some ⟨[([1], [7])], []⟩ := by
  constructor
  · decide
  · decide

/-- C4 (amended): Signature::verify panics rather than returning false on
    malformed byte lengths — whenever the public key length differs from 32,
    or the key parses but the signature length differs from 64, the
    conversions' try_into().unwrap() aborts, for every possible behavior of
    the underlying Ed25519 library. -/
theorem verify_malformed_length_panics (impl : Ed25519Impl) (sig pk msg : Bytes)
    (h : pk.length ≠ 32 ∨ (impl.validPoint pk = true ∧ sig.length ≠ 64)) :
    Signature.verify impl sig pk msg = none := by
  rcases h with h | ⟨hv, hs⟩
  · simp [Signature.verify, h]
  · by_cases hp : pk.length = 32
    · simp [Signature.verify, hp, hv, hs]
    · simp [Signature.verify, hp]

/-- Witness for verify_malformed_length_panics at empty key and signature. -/
theorem verify_malformed_length_panics_witness :
    (([] : Bytes).length ≠ 32 ∨
      (allValid.validPoint [] = true ∧ ([] : Bytes).length ≠ 64)) ∧
    Signature.verify allValid [] [] [] = none :=
  ⟨Or.inl (by decide),
   verify_malformed_length_panics allValid [] [] [] (Or.inl (by decide))⟩

/-- C4 counterexample: on an empty public key (a malformed length), verify
    panics (modelled as none) instead of returning false as claimed. -/
theorem verify_malformed_length_counterexample :
    Signature.verify allValid [] [] [] = none ∧
    Signature.verify allValid [] [] [] ≠ some false := by
  constructor
  · rfl
  · decide

/-! Claim C2: the catch-up sync is the fold of process_tx over the flattened
    height-ordered transaction list. -/

theorem foldl_applyLogged_none (txs : List Transaction) :
    txs.foldl applyLogged none = none := by
  induction txs with
  | nil => rfl
  | cons t r ih => simpa [applyLogged] using ih

theorem syncStep_eq (da : Nat → Option (List Bytes)) (st : Option State) (h : Nat) :
    syncStep da st h = ((((da h).getD []).map blobTxs).flatten).foldl applyLogged st := by
  cases st with
  | none => exact (foldl_applyLogged_none _).symm
  | some s =>
      cases hda : da h with
      | none => simp [syncStep, hda]
      | some blobs => simp [syncStep, hda, process_l1_block]

theorem fold_heights_eq (da : Nat → Option (List Bytes)) (hs : List Nat)
    (st : Option State) :
    hs.foldl (syncStep da) st =
      ((hs.map fun h => (((da h).getD []).map blobTxs).flatten).flatten).foldl
        applyLogged st := by
  induction hs generalizing st with
  | nil => rfl
  | cons h rest ih =>
      simp only [List.foldl_cons, List.map_cons, List.flatten_cons, List.foldl_append]
      rw [syncStep_eq]
      exact ih _

/-- C2: a completed sync_from_genesis run over DA layer da with network head
    H observed at start produces exactly the fold of process_tx (rejections
    skipped, panic aborting) over the transactions decoded from the blobs of
    heights start..H — excluding H — ordered by height, then blob order
    within a height, then transaction order within a batch; heights without
    blobs contribute nothing. -/
theorem sync_from_genesis_is_fold (da : Nat → Option (List Bytes))
    (start H : Nat) (s : State) :
    sync_from_genesis da start H s = specLedgerFold s (specSyncTxs da start H) := by
  unfold sync_from_genesis specLedgerFold specSyncTxs
  exact fold_heights_eq da (heights start H) (some s)

/-! Claim C3: live sync is gated behind completion of catch-up sync. -/

theorem sync_from_genesis_succ (da : Nat → Option (List Bytes)) (start n : Nat)
    (h : start ≤ n) :
    sync_from_genesis da start (n + 1) State.new =
      syncStep da (sync_from_genesis da start n State.new) n := by
  unfold sync_from_genesis heights
  have h1 : n + 1 - start = (n - start) + 1 := by omega
  rw [h1, List.range'_concat]
  have h2 : start + 1 * (n - start) = n := by omega
  rw [h2, List.foldl_append]
  rfl

theorem engineInv_reach (da : Nat → Option (List Bytes)) (H start : Nat)
    (e : EngineState) (hr : EngineReach da H start e) : engineInv da H start e := by
  induction hr with
  | init =>
      refine ⟨by simp [engineInit], by simp [engineInit], by simp [engineInit],
        ?_, by simp [engineInit]⟩
      intro _
      simp [engineInit, sync_from_genesis, heights, Nat.sub_self]
  | @step e1 e2 hr hs ih =>
      obtain ⟨i1, i2, i3, i4, i5⟩ := ih
      cases hs with
      | catchup s h1 h2 =>
          refine ⟨i1, ?_, i3, ?_, ?_⟩
          · intro hf
            have := i2 hf
            simp only at *
            omega
          · intro hz
            have h4 := i4 hz
            simp only at *
            rw [sync_from_genesis_succ da start e1.nextHeight i5, ← h4, h2]
          · simp only at *
            omega
      | fire h1 h2 h3 =>
          refine ⟨fun _ => rfl, ?_, i3, i4, i5⟩
          intro _
          simp only at *
          omega
      | recvBlobs blobs => exact ⟨i1, i2, i3, i4, i5⟩
      | passGate h1 h2 => exact ⟨fun _ => h1, i2, fun _ => rfl, i4, i5⟩
      | consume s blobs rest h1 h2 h3 =>
          refine ⟨i1, i2, fun _ => h1, ?_, i5⟩
          intro hz
          exact absurd hz (Nat.succ_ne_zero _)

/-- C3: in every reachable execution of the sync engine, a step that applies
    a subscription-delivered blob list to the Ledger (a consumer-loop
    iteration, recognizable as the step that increments liveApplied) can only
    happen after the consumer has passed the notified() gate, hence after the
    genesis-sync-complete signal has fired, hence after the catch-up loop has
    advanced past every height in start..H; and if it is the first such
    application, the Ledger at that moment is exactly the catch-up fold over
    all those heights. -/
theorem live_gated_by_genesis_sync (da : Nat → Option (List Bytes)) (H start : Nat)
    (e e2 : EngineState) (hr : EngineReach da H start e) (hs : EngineStep da H e e2)
    (hinc : e2.liveApplied = e.liveApplied + 1) :
    e.gatePassed = true ∧ e.signalFired = true ∧ H ≤ e.nextHeight ∧
    (e.liveApplied = 0 →
      e.ledger = sync_from_genesis da start e.nextHeight State.new) := by
  obtain ⟨i1, i2, i3, i4, i5⟩ := engineInv_reach da H start e hr
  cases hs with
  | catchup s h1 h2 => simp only at hinc; omega
  | fire h1 h2 h3 => simp only at hinc; omega
  | recvBlobs blobs => simp only at hinc; omega
  | passGate h1 h2 => simp only at hinc; omega
  | consume s blobs rest h1 h2 h3 =>
      have hsig := i1 h1
      exact ⟨h1, hsig, i2 hsig, i4⟩

/-- Witness for live_gated_by_genesis_sync: a concrete four-step execution
    with start height 0 and network head 0 — fire the signal, receive an
    empty blob list, pass the gate, and take the consume step. -/
theorem live_gated_by_genesis_sync_witness :
    (EngineReach (fun _ => none) 0 0 ⟨0, true, true, [[]], some State.new, 0⟩ ∧
     EngineStep (fun _ => none) 0 ⟨0, true, true, [[]], some State.new, 0⟩
       ⟨0, true, true, [], some State.new, 1⟩ ∧
     (⟨0, true, true, [], some State.new, 1⟩ : EngineState).liveApplied =
       (⟨0, true, true, [[]], some State.new, 0⟩ : EngineState).liveApplied + 1) ∧
    ((⟨0, true, true, [[]], some State.new, 0⟩ : EngineState).gatePassed = true ∧
     (⟨0, true, true, [[]], some State.new, 0⟩ : EngineState).signalFired = true ∧
     0 ≤ (⟨0, true, true, [[]], some State.new, 0⟩ : EngineState).nextHeight ∧
     ((⟨0, true, true, [[]], some State.new, 0⟩ : EngineState).liveApplied = 0 →
       (⟨0, true, true, [[]], some State.new, 0⟩ : EngineState).ledger =
         sync_from_genesis (fun _ => none) 0
           (⟨0, true, true, [[]], some State.new, 0⟩ : EngineState).nextHeight
           State.new)) := by
  have r0 : EngineReach (fun _ => none) 0 0 (engineInit 0) := EngineReach.init
  have s1 : EngineStep (fun _ => none) 0 (engineInit 0)
      ⟨0, true, false, [], some State.new, 0⟩ :=
    EngineStep.fire (engineInit 0) (by decide) rfl rfl
  have r1 : EngineReach (fun _ => none) 0 0
      (⟨0, true, false, [], some State.new, 0⟩ : EngineState) :=
    EngineReach.step r0 s1
  have s2 : EngineStep (fun _ => none) 0
      (⟨0, true, false, [], some State.new, 0⟩ : EngineState)
      ⟨0, true, false, [[]], some State.new, 0⟩ :=
    EngineStep.recvBlobs ⟨0, true, false, [], some State.new, 0⟩ []
  have r2 : EngineReach (fun _ => none) 0 0
      (⟨0, true, false, [[]], some State.new, 0⟩ : EngineState) :=
    EngineReach.step r1 s2
  have s3 : EngineStep (fun _ => none) 0
      (⟨0, true, false, [[]], some State.new, 0⟩ : EngineState)
      ⟨0, true, true, [[]], some State.new, 0⟩ :=
    EngineStep.passGate ⟨0, true, false, [[]], some State.new, 0⟩ rfl rfl
  have r3 : EngineReach (fun _ => none) 0 0
      (⟨0, true, true, [[]], some State.new, 0⟩ : EngineState) :=
    EngineReach.step r2 s3
  have s4 : EngineStep (fun _ => none) 0
      (⟨0, true, true, [[]], some State.new, 0⟩ : EngineState)
      ⟨0, true, true, [], some State.new, 1⟩ :=
    EngineStep.consume ⟨0, true, true, [[]], some State.new, 0⟩ State.new [] [] rfl rfl rfl
  exact ⟨⟨r3, s4, rfl⟩,
    live_gated_by_genesis_sync (fun _ => none) 0 0
      ⟨0, true, true, [[]], some State.new, 0⟩
      ⟨0, true, true, [], some State.new, 1⟩ r3 s4 rfl⟩

end Grugchat
